import Mathlib

/-!
# Verification of the MoTeC `.ld` telemetry reader

Shallow embedding of the repository's decoding core (`utils.ts` / `ldChan.ts`,
`ldHead.ts`, `ldData.ts`) and proofs about it.

Modelling conventions:
* A Node.js `Buffer` is a `List ℕ` of bytes (each < 256 on real inputs; the
  definitions never depend on that bound).
* JavaScript numbers are modelled as exact values: finite numbers as exact
  rationals `ℚ`, plus the IEEE special values `+Infinity`, `-Infinity`, `NaN`
  as explicit constructors of `JsNum`.  All quantities actually decoded by
  this program (small integers, half/single-precision payloads, powers of
  ten) are representable; finite arithmetic is idealised to exact rational
  arithmetic.
* A Node buffer read that throws `RangeError` (out of bounds) is modelled by
  `Option`: `none` is the thrown exception.  `Buffer.slice` clamps to the
  buffer end and never throws, so `readBytes` is total.
* The mutable `BinaryReader` cursor is modelled by explicit position
  threading: each sequential `read`/`skip` of the source advances a local
  position variable `p`, exactly mirroring the source's statement order.
-/

namespace Motec

/-- JavaScript number values as produced by this decoder: an exact rational,
or one of the IEEE-754 special values. -/
inductive JsNum where
  | fin : ℚ → JsNum
  | posInf : JsNum
  | negInf : JsNum
  | nan : JsNum
deriving DecidableEq, Repr

/-- JavaScript `+` on `JsNum` (finite arithmetic idealised to `ℚ`). -/
def jsAdd : JsNum → JsNum → JsNum
  | .nan, _ => .nan
  | _, .nan => .nan
  | .fin a, .fin b => .fin (a + b)
  | .fin _, .posInf => .posInf
  | .posInf, .fin _ => .posInf
  | .posInf, .posInf => .posInf
  | .fin _, .negInf => .negInf
  | .negInf, .fin _ => .negInf
  | .negInf, .negInf => .negInf
  | .posInf, .negInf => .nan
  | .negInf, .posInf => .nan

/-- JavaScript `*` on `JsNum`. -/
def jsMul : JsNum → JsNum → JsNum
  | .nan, _ => .nan
  | _, .nan => .nan
  | .fin a, .fin b => .fin (a * b)
  | .fin a, .posInf => if a = 0 then .nan else if 0 < a then .posInf else .negInf
  | .posInf, .fin b => if b = 0 then .nan else if 0 < b then .posInf else .negInf
  | .fin a, .negInf => if a = 0 then .nan else if 0 < a then .negInf else .posInf
  | .negInf, .fin b => if b = 0 then .nan else if 0 < b then .negInf else .posInf
  | .posInf, .posInf => .posInf
  | .negInf, .negInf => .posInf
  | .posInf, .negInf => .negInf
  | .negInf, .posInf => .negInf

/-- JavaScript `/` on `JsNum` (division by zero produces an infinity or NaN;
the sign of zero is not modelled). -/
def jsDiv : JsNum → JsNum → JsNum
  | .nan, _ => .nan
  | _, .nan => .nan
  | .fin a, .fin b =>
      if b = 0 then (if a = 0 then .nan else if 0 < a then .posInf else .negInf)
      else .fin (a / b)
  | .fin _, .posInf => .fin 0
  | .fin _, .negInf => .fin 0
  | .posInf, .fin b => if b < 0 then .negInf else .posInf
  | .negInf, .fin b => if b < 0 then .posInf else .negInf
  | .posInf, .posInf => .nan
  | .posInf, .negInf => .nan
  | .negInf, .posInf => .nan
  | .negInf, .negInf => .nan

/-- Strip leading and trailing whitespace from a character list (the
behaviour of JS `String.prototype.trim` on the ASCII range). -/
def trimChars (cs : List Char) : List Char :=
  ((cs.dropWhile Char.isWhitespace).reverse.dropWhile Char.isWhitespace).reverse

/-- Source `decodeString` (utils.ts): truncate the byte slice at the first
null byte (or keep it all if none), decode as `ascii` (Node strips the high
bit of each byte) and trim surrounding whitespace. -/
def decodeString (bs : List ℕ) : String :=
  String.mk (trimChars ((bs.takeWhile (fun b => b ≠ 0)).map (fun b => Char.ofNat (b &&& 0x7F))))

/-- Source `BinaryReader.readUInt16LE`: two bytes, little endian; `none`
models the `RangeError` Node throws when `[pos, pos+2)` exceeds the buffer. -/
def readUInt16LE (buf : List ℕ) (pos : ℕ) : Option ℕ :=
  if pos + 2 ≤ buf.length then
    some (buf.getD pos 0 + 2 ^ 8 * buf.getD (pos + 1) 0)
  else none

/-- Source `BinaryReader.readUInt32LE`: four bytes, little endian. -/
def readUInt32LE (buf : List ℕ) (pos : ℕ) : Option ℕ :=
  if pos + 4 ≤ buf.length then
    some (buf.getD pos 0 + 2 ^ 8 * buf.getD (pos + 1) 0 +
      2 ^ 16 * buf.getD (pos + 2) 0 + 2 ^ 24 * buf.getD (pos + 3) 0)
  else none

/-- Two's-complement reading of a 16-bit pattern as a signed integer. -/
def toSigned16 (u : ℕ) : ℤ :=
  if u < 2 ^ 15 then (u : ℤ) else (u : ℤ) - 2 ^ 16

/-- Two's-complement reading of a 32-bit pattern as a signed integer. -/
def toSigned32 (u : ℕ) : ℤ :=
  if u < 2 ^ 31 then (u : ℤ) else (u : ℤ) - 2 ^ 32

/-- Source `BinaryReader.readInt16LE`. -/
def readInt16LE (buf : List ℕ) (pos : ℕ) : Option ℤ :=
  (readUInt16LE buf pos).map toSigned16

/-- Source `BinaryReader.readInt32LE`. -/
def readInt32LE (buf : List ℕ) (pos : ℕ) : Option ℤ :=
  (readUInt32LE buf pos).map toSigned32

/-- Source `BinaryReader.readBytes` / `Buffer.slice`: clamps to the buffer
end; never fails. -/
def readBytes (buf : List ℕ) (pos len : ℕ) : List ℕ :=
  (buf.drop pos).take len

/-- Source `BinaryReader.readFloat16` (utils.ts lines 105-118), acting on the
16-bit pattern already fetched by `readUInt16LE`. -/
def readFloat16Val (v : ℕ) : JsNum :=
  let sign := (v &&& 0x8000) >>> 15
  let exponent := (v &&& 0x7C00) >>> 10
  let fraction := v &&& 0x03FF
  if exponent = 0 then
    .fin ((if sign ≠ 0 then -1 else 1) * (2 : ℚ) ^ (-14 : ℤ) * ((fraction : ℚ) / 2 ^ (10 : ℕ)))
  else if exponent = 0x1F then
    (if fraction ≠ 0 then .nan else if sign ≠ 0 then .negInf else .posInf)
  else
    .fin ((if sign ≠ 0 then -1 else 1) * (2 : ℚ) ^ ((exponent : ℤ) - 15) *
      (1 + (fraction : ℚ) / 2 ^ (10 : ℕ)))

/-- Node `Buffer.readFloatLE` semantics on the already-fetched 32-bit little
endian pattern: IEEE-754 single precision (the widening to a JS double is
exact). -/
def float32Val (v : ℕ) : JsNum :=
  let sign : ℕ := (v >>> 31) % 2
  let exponent : ℕ := (v >>> 23) % 2 ^ 8
  let fraction : ℕ := v % 2 ^ 23
  if exponent = 0 then
    .fin ((if sign ≠ 0 then -1 else 1) * (2 : ℚ) ^ (-126 : ℤ) * ((fraction : ℚ) / 2 ^ (23 : ℕ)))
  else if exponent = 0xFF then
    (if fraction ≠ 0 then .nan else if sign ≠ 0 then .negInf else .posInf)
  else
    .fin ((if sign ≠ 0 then -1 else 1) * (2 : ℚ) ^ ((exponent : ℤ) - 127) *
      (1 + (fraction : ℚ) / 2 ^ (23 : ℕ)))

/-- The four resolvable channel data types (`DataType` in ldChan.ts, with the
source's `null` modelled as `Option.none` at use sites). -/
inductive DataType where
  | int16 | int32 | float16 | float32
deriving DecidableEq, Repr

/-- Byte width of one raw sample of each data type (how far the source's
cursor advances per loop iteration of `readNumericArray`). -/
def DataType.width : DataType → ℕ
  | .int16 => 2
  | .float16 => 2
  | .int32 => 4
  | .float32 => 4

/-- Decode one raw sample of type `dt` at absolute offset `pos` (one loop
body of `BinaryReader.readNumericArray`). -/
def readOne (buf : List ℕ) (dt : DataType) (pos : ℕ) : Option JsNum :=
  match dt with
  | .int16 => (readInt16LE buf pos).map (fun i => .fin (i : ℚ))
  | .int32 => (readInt32LE buf pos).map (fun i => .fin (i : ℚ))
  | .float32 => (readUInt32LE buf pos).map float32Val
  | .float16 => (readUInt16LE buf pos).map readFloat16Val

/-- The loop of `BinaryReader.readNumericArray`: `count` sequential samples
starting at `pos`, the cursor advancing by the sample width each time. -/
def readNumLoop (buf : List ℕ) (dt : DataType) : ℕ → ℕ → Option (List JsNum)
  | _, 0 => some []
  | pos, n + 1 => do
      let v ← readOne buf dt pos
      let rest ← readNumLoop buf dt (pos + dt.width) n
      pure (v :: rest)

/-- Source `BinaryReader.readNumericArray` (seek to `dataPtr`, then the
read loop).  The `gps`/`timestamp` cases of the source are unreachable from
a channel's `DataType` and are not modelled. -/
def readNumericArray (buf : List ℕ) (dataPtr count : ℕ) (dt : DataType) : Option (List JsNum) :=
  readNumLoop buf dt dataPtr count

/-- Channel-metadata record (`LdChan` in ldChan.ts).  The source object also
stores the shared `BinaryReader`; the underlying buffer is passed explicitly
to `chanData` instead.  `dataCache` is the source's private `_data` field. -/
structure LdChan where
  metaPtr : ℕ
  prevMetaPtr : ℕ
  nextMetaPtr : ℕ
  dataPtr : ℕ
  dataLen : ℕ
  dtype : Option DataType
  freq : ℕ
  shift : ℤ
  mul : ℤ
  scale : ℤ
  dec : ℤ
  name : String
  shortName : String
  unit : String
  dataCache : Option (List JsNum)
deriving DecidableEq, Repr

/-- The dtype-resolution if-chain of `LdChan.fromFile` (ldChan.ts lines
227-237), extracted as a function of the two raw fields. -/
def resolveDtype (dtypeA dtypeRaw : ℕ) : Option DataType :=
  if dtypeA = 0x07 then
    if dtypeRaw = 2 then some .float16
    else if dtypeRaw = 4 then some .float32
    else none
  else if dtypeA = 0 ∨ dtypeA = 0x03 ∨ dtypeA = 0x05 then
    if dtypeRaw = 2 then some .int16
    else if dtypeRaw = 4 then some .int32
    else none
  else none

/-- Source `LdChan.fromFile`: seek to `metaPtr` and read the channel record
fields in order (format `<IIII H HHH hhhh 32s 8s 12s 40x`). -/
def ldChanFromFile (buf : List ℕ) (metaPtr : ℕ) : Option LdChan := do
  let p := metaPtr
  let prevMetaPtr ← readUInt32LE buf p
  let p := p + 4
  let nextMetaPtr ← readUInt32LE buf p
  let p := p + 4
  let dataPtr ← readUInt32LE buf p
  let p := p + 4
  let dataLen ← readUInt32LE buf p
  let p := p + 4
  let p := p + 2          -- skip(2): some counter
  let dtypeA ← readUInt16LE buf p
  let p := p + 2
  let dtypeRaw ← readUInt16LE buf p
  let p := p + 2
  let freq ← readUInt16LE buf p
  let p := p + 2
  let shift ← readInt16LE buf p
  let p := p + 2
  let mul ← readInt16LE buf p
  let p := p + 2
  let scale ← readInt16LE buf p
  let p := p + 2
  let dec ← readInt16LE buf p
  let p := p + 2
  let name := decodeString (readBytes buf p 32)
  let p := p + 32
  let shortName := decodeString (readBytes buf p 8)
  let p := p + 8
  let unit := decodeString (readBytes buf p 12)
  -- skip(40): padding; the cursor position after it is unused
  pure { metaPtr := metaPtr, prevMetaPtr := prevMetaPtr, nextMetaPtr := nextMetaPtr,
         dataPtr := dataPtr, dataLen := dataLen,
         dtype := resolveDtype dtypeA dtypeRaw, freq := freq,
         shift := shift, mul := mul, scale := scale, dec := dec,
         name := name, shortName := shortName, unit := unit, dataCache := none }

/-- The raw→physical scaling of `LdChan.data`:
`(value / this.scale * Math.pow(10, -this.dec) + this.shift) * this.mul`. -/
def scaleChan (c : LdChan) (v : JsNum) : JsNum :=
  jsMul (jsAdd (jsMul (jsDiv v (.fin (c.scale : ℚ))) (.fin ((10 : ℚ) ^ (-c.dec))))
    (.fin (c.shift : ℚ))) (.fin (c.mul : ℚ))

/-- Decoding failures, named after the spec's error taxonomy; the source
raises them as `Error` values with corresponding messages. -/
inductive LdError where
  | outOfBounds : LdError
  | unknownDataType : String → LdError
  | indexOutOfRange : ℤ → LdError
  | channelNotFound : String → LdError
  | ambiguousChannelName : String → LdError
deriving DecidableEq, Repr

/-- Source `LdChan.data` getter: reject an unknown dtype, return the cache if
populated, otherwise read the raw array, scale it, and store it in the
cache.  The mutation of `this._data` is modelled by returning the updated
channel alongside the value. -/
def chanData (buf : List ℕ) (c : LdChan) : Except LdError (List JsNum × LdChan) :=
  match c.dtype with
  | none => .error (.unknownDataType c.name)
  | some dt =>
    match c.dataCache with
    | some d => .ok (d, c)
    | none =>
      match readNumericArray buf c.dataPtr c.dataLen dt with
      | none => .error .outOfBounds
      | some rawData =>
        let phys := rawData.map (scaleChan c)
        .ok (phys, { c with dataCache := some phys })

/-- Source `readChannels` (ldChan.ts lines 291-302): follow `nextMetaPtr`
from `metaPtr` until it is `0`.  The source's unbounded `while` loop is
embedded with explicit fuel; `none` means the loop either hit a failing read
or did not finish within `fuel` iterations.  The loop terminates on a given
input exactly when some fuel returns `some`. -/
def readChannelsFuel (buf : List ℕ) : ℕ → ℕ → Option (List LdChan)
  | 0, currentPtr => if currentPtr = 0 then some [] else none
  | fuel + 1, currentPtr =>
    if currentPtr = 0 then some []
    else do
      let chan ← ldChanFromFile buf currentPtr
      let rest ← readChannelsFuel buf fuel chan.nextMetaPtr
      pure (chan :: rest)

/-- Vehicle record (`LdVehicle` in ldHead.ts). -/
structure LdVehicle where
  id : String
  weight : ℕ
  type : String
  comment : String
deriving DecidableEq, Repr

/-- Source `LdVehicle.fromFile` (format `<64s 128x I 32s 32s`). -/
def ldVehicleFromFile (buf : List ℕ) (ptr : ℕ) : Option LdVehicle := do
  let p := ptr
  let id := decodeString (readBytes buf p 64)
  let p := p + 64
  let p := p + 128        -- skip(128)
  let weight ← readUInt32LE buf p
  let p := p + 4
  let type := decodeString (readBytes buf p 32)
  let p := p + 32
  let comment := decodeString (readBytes buf p 32)
  pure { id := id, weight := weight, type := type, comment := comment }

/-- Venue record (`LdVenue` in ldHead.ts). -/
structure LdVenue where
  name : String
  vehiclePtr : ℕ
  vehicle : Option LdVehicle
deriving DecidableEq, Repr

/-- Source `LdVenue.fromFile` (format `<64s 1034x H`), with the
save/seek/parse/restore of the vehicle pointer. -/
def ldVenueFromFile (buf : List ℕ) (ptr : ℕ) : Option LdVenue := do
  let p := ptr
  let name := decodeString (readBytes buf p 64)
  let p := p + 64
  let p := p + 1034       -- skip(1034)
  let vehiclePtr ← readUInt16LE buf p
  let vehicle ← if vehiclePtr > 0 then some <$> ldVehicleFromFile buf vehiclePtr
                else pure none
  pure { name := name, vehiclePtr := vehiclePtr, vehicle := vehicle }

/-- Event record (`LdEvent` in ldHead.ts). -/
structure LdEvent where
  name : String
  session : String
  comment : String
  venuePtr : ℕ
  venue : Option LdVenue
deriving DecidableEq, Repr

/-- Source `LdEvent.fromFile` (format `<64s 64s 1024s H`). -/
def ldEventFromFile (buf : List ℕ) (ptr : ℕ) : Option LdEvent := do
  let p := ptr
  let name := decodeString (readBytes buf p 64)
  let p := p + 64
  let session := decodeString (readBytes buf p 64)
  let p := p + 64
  let comment := decodeString (readBytes buf p 1024)
  let p := p + 1024
  let venuePtr ← readUInt16LE buf p
  let venue ← if venuePtr > 0 then some <$> ldVenueFromFile buf venuePtr
              else pure none
  pure { name := name, session := session, comment := comment,
         venuePtr := venuePtr, venue := venue }

/-- Header record (`LdHead` in ldHead.ts).  The source composes a JS `Date`
from the two date/time text fields; the composed `Date` (and its
wall-clock-time fallback) is outside the claims, so the decoded text fields
themselves are kept. -/
structure LdHead where
  metaPtr : ℕ
  dataPtr : ℕ
  eventPtr : ℕ
  event : Option LdEvent
  driver : String
  vehicleId : String
  venue : String
  dateStr : String
  timeStr : String
  shortComment : String
deriving DecidableEq, Repr

/-- Source `LdHead.fromFile` (ldHead.ts lines 154-255): seek to 0 and read
the header fields in statement order, skipping the documented paddings
(format `<I 4x II 20x I 24x HHH I 8s H H I 4x 16s 16x 16s 16x 64s 64s 64x
64s 64x 1024x I 66x 64s 126x`), then parse the event record if
`eventPtr > 0`. -/
def ldHeadFromFile (buf : List ℕ) : Option LdHead := do
  let p := 0
  let p := p + 4          -- skip(4): ldmarker
  let p := p + 4          -- skip(4): padding
  let metaPtr ← readUInt32LE buf p
  let p := p + 4
  let dataPtr ← readUInt32LE buf p
  let p := p + 4
  let p := p + 20         -- skip(20): unknown
  let eventPtr ← readUInt32LE buf p
  let p := p + 4
  let p := p + 24         -- skip(24): unknown
  let p := p + 6          -- skip(2+2+2): unknown static numbers
  let p := p + 4          -- skip(4): device serial
  let p := p + 8          -- skip(8): device type
  let p := p + 2          -- skip(2): device version
  let p := p + 2          -- skip(2): unknown static number
  let p := p + 4          -- skip(4): num_channs
  let p := p + 4          -- skip(4): padding
  let dateStr := decodeString (readBytes buf p 16)
  let p := p + 16
  let p := p + 16         -- skip(16): padding
  let timeStr := decodeString (readBytes buf p 16)
  let p := p + 16
  let p := p + 16         -- skip(16): padding
  let driver := decodeString (readBytes buf p 64)
  let p := p + 64
  let vehicleId := decodeString (readBytes buf p 64)
  let p := p + 64
  let p := p + 64         -- skip(64): padding
  let venue := decodeString (readBytes buf p 64)
  let p := p + 64
  let p := p + 64         -- skip(64): padding
  let p := p + 1024       -- skip(1024): padding
  let p := p + 4          -- skip(4): pro logging magic number
  let p := p + 66         -- skip(66): padding
  let shortComment := decodeString (readBytes buf p 64)
  let event ← if eventPtr > 0 then some <$> ldEventFromFile buf eventPtr
              else pure none
  pure { metaPtr := metaPtr, dataPtr := dataPtr, eventPtr := eventPtr,
         event := event, driver := driver, vehicleId := vehicleId,
         venue := venue, dateStr := dateStr, timeStr := timeStr,
         shortComment := shortComment }

/-- Source `LdData.getChannel` with a numeric argument (ldData.ts lines
39-43): a JS number index, negative or past the end rejected. -/
def getChannelByIndex (channels : List LdChan) (i : ℤ) : Except LdError LdChan :=
  if h : i < 0 ∨ (channels.length : ℤ) ≤ i then
    .error (.indexOutOfRange i)
  else
    .ok (channels.get ⟨i.toNat, by omega⟩)

/-- Source `LdData.getChannel` with a string argument (ldData.ts lines
46-54): filter by name, reject zero or several matches. -/
def getChannelByName (channels : List LdChan) (n : String) : Except LdError LdChan :=
  let matchingChannels := channels.filter (fun ch => ch.name == n)
  if h0 : matchingChannels.length = 0 then
    .error (.channelNotFound n)
  else if 1 < matchingChannels.length then
    .error (.ambiguousChannelName n)
  else
    .ok (matchingChannels.get ⟨0, Nat.pos_of_ne_zero h0⟩)

/-- JS object-key assignment `result[name] = data`: replace the value of an
existing key in place, otherwise append the new key. -/
def upsert (m : List (String × List JsNum)) (k : String) (v : List JsNum) :
    List (String × List JsNum) :=
  match m with
  | [] => [(k, v)]
  | (k', v') :: rest => if k' = k then (k', v) :: rest else (k', v') :: upsert rest k v

/-- The loop of `LdData.toDataMap`: for each channel in order, evaluate its
`data` getter and assign `result[channel.name] = channel.data`. -/
def toDataMapGo (buf : List ℕ) : List LdChan → List (String × List JsNum) →
    Except LdError (List (String × List JsNum))
  | [], acc => .ok acc
  | c :: rest, acc =>
    match chanData buf c with
    | .error e => .error e
    | .ok (d, _) => toDataMapGo buf rest (upsert acc c.name d)

/-- Source `LdData.toDataMap` (ldData.ts lines 116-122). -/
def toDataMap (buf : List ℕ) (channels : List LdChan) :
    Except LdError (List (String × List JsNum)) :=
  toDataMapGo buf channels []

/-- The last channel of the list bearing name `n`, in traversal order. -/
def lastNamed (channels : List LdChan) (n : String) : Option LdChan :=
  match channels with
  | [] => none
  | c :: rest =>
    match lastNamed rest n with
    | some c' => some c'
    | none => if c.name = n then some c else none

/-- Half-precision decoding as the spec's §4.4 words state it: split the
16-bit pattern into 1 sign bit, 5 exponent bits and 10 fraction bits
(arithmetically, by division and remainder), then apply the three decoding
rules.  Spec-side model, to be compared with the source's `readFloat16Val`. -/
def float16SpecModel (v : ℕ) : JsNum :=
  let sign : ℚ := if v / 2 ^ 15 % 2 = 1 then -1 else 1
  let exponent : ℕ := v / 2 ^ 10 % 2 ^ 5
  let fraction : ℕ := v % 2 ^ 10
  if exponent = 0 then
    .fin (sign * (2 : ℚ) ^ (-14 : ℤ) * ((fraction : ℚ) / 1024))
  else if exponent = 31 then
    (if fraction ≠ 0 then .nan else if sign = -1 then .negInf else .posInf)
  else
    .fin (sign * (2 : ℚ) ^ ((exponent : ℤ) - 15) * (1 + (fraction : ℚ) / 1024))

/-- Data-type resolution as the spec's §4.5 table states it.  Spec-side
model, to be compared with the source's `resolveDtype`. -/
def dtypeOfSpec (dtypeClass dtypeWidth : ℕ) : Option DataType :=
  if dtypeClass = 0x07 ∧ dtypeWidth = 2 then some .float16
  else if dtypeClass = 0x07 ∧ dtypeWidth = 4 then some .float32
  else if (dtypeClass = 0 ∨ dtypeClass = 0x03 ∨ dtypeClass = 0x05) ∧ dtypeWidth = 2 then
    some .int16
  else if (dtypeClass = 0 ∨ dtypeClass = 0x03 ∨ dtypeClass = 0x05) ∧ dtypeWidth = 4 then
    some .int32
  else none

/-! ### Concrete fixtures used by witnesses and counterexamples -/

/-- The §8 scenario channel: `dtype=int16`, `dataLen=3`, `scale=1`, `dec=1`,
`shift=0`, `mul=1`, data at offset 0. -/
def testChan : LdChan :=
  { metaPtr := 0
    prevMetaPtr := 0
    nextMetaPtr := 0
    dataPtr := 0
    dataLen := 3
    dtype := some DataType.int16
    freq := 1
    shift := 0
    mul := 1
    scale := 1
    dec := 1
    name := "c"
    shortName := "c"
    unit := ""
    dataCache := none }

/-- Raw buffer holding the int16 little-endian samples `[10, 20, 30]`. -/
def testBuf : List ℕ := [10, 0, 20, 0, 30, 0]

/-- The physical values of the §8 scenario. -/
def testPhys : List JsNum := [.fin 1, .fin 2, .fin 3]

/-- `testChan` after its first data access populated the cache. -/
def testChanCached : LdChan := { testChan with dataCache := some testPhys }

/-- A copy of `testChan` with `mul = 2` (same name, different data), for the
duplicate-name fixtures. -/
def testChanDouble : LdChan := { testChan with mul := 2 }

/-- The physical values of `testChanDouble` on `testBuf`. -/
def testPhysDouble : List JsNum := [.fin 2, .fin 4, .fin 6]

/-- `testChanDouble` after its first data access populated the cache. -/
def testChanDoubleCached : LdChan := { testChanDouble with dataCache := some testPhysDouble }

/-- A 48-byte buffer whose channel record at offset 16 has
`nextMetaPtr = 16`: a self-cycling channel chain. -/
def cyclicBuf : List ℕ := (List.replicate 48 0).set 20 16

/-- A 110-byte zero buffer with byte `65` (`'A'`) at offset 94 and byte `66`
(`'B'`) at offset 102: its header date text is read from offset 94, not from
the offset 102 the spec table gives. -/
def hdrBuf : List ℕ := ((List.replicate 110 0).set 94 65).set 102 66

/-- The header the source decodes from `hdrBuf`: the date text is the `'A'`
at offset 94, every other field empty or zero. -/
def hdrBufHead : LdHead :=
  { metaPtr := 0
    dataPtr := 0
    eventPtr := 0
    event := none
    driver := ""
    vehicleId := ""
    venue := ""
    dateStr := "A"
    timeStr := ""
    shortComment := "" }

/-- A 48-byte buffer whose channel record at offset 0 has `dtypeClass = 9`
(an unrecognised combination). -/
def unknownDtypeBuf : List ℕ := (List.replicate 48 0).set 18 9

/-- A channel handle with an unresolved dtype. -/
def unknownChan : LdChan :=
  { metaPtr := 0
    prevMetaPtr := 0
    nextMetaPtr := 0
    dataPtr := 0
    dataLen := 0
    dtype := none
    freq := 0
    shift := 0
    mul := 0
    scale := 0
    dec := 0
    name := ""
    shortName := ""
    unit := ""
    dataCache := none }

end Motec

deriving instance DecidableEq for Except

/-! ## Theorems -/

namespace Motec

lemma and_8000_shr_15 (v : ℕ) : (v &&& 0x8000) >>> 15 = v / 2 ^ 15 % 2 := by
  apply Nat.eq_of_testBit_eq
  intro i
  rw [show (0x8000 : ℕ) = 2 ^ 15 by norm_num,
      show v / 2 ^ 15 % 2 = v >>> 15 % 2 ^ 1 by rw [Nat.shiftRight_eq_div_pow]; norm_num]
  simp only [Nat.testBit_shiftRight, Nat.testBit_and, Nat.testBit_two_pow,
    Nat.testBit_mod_two_pow]
  rcases i with _ | i <;> simp

lemma and_7C00_shr_10 (v : ℕ) : (v &&& 0x7C00) >>> 10 = v / 2 ^ 10 % 2 ^ 5 := by
  apply Nat.eq_of_testBit_eq
  intro i
  rw [show (0x7C00 : ℕ) = (2 ^ 5 - 1) <<< 10 by decide,
      show v / 2 ^ 10 % 2 ^ 5 = v >>> 10 % 2 ^ 5 by rw [Nat.shiftRight_eq_div_pow]]
  simp only [Nat.testBit_shiftRight, Nat.testBit_and, Nat.testBit_shiftLeft,
    Nat.testBit_mod_two_pow, Nat.testBit_two_pow_sub_one]
  have h1 : 10 ≤ 10 + i := by omega
  simp only [h1, decide_True, Bool.true_and, Nat.add_sub_cancel_left, Bool.and_comm]

lemma and_03FF (v : ℕ) : v &&& 0x03FF = v % 2 ^ 10 := by
  rw [show (0x03FF : ℕ) = 2 ^ 10 - 1 by norm_num, Nat.and_pow_two_sub_one_eq_mod]

/-- The source's mask-and-shift decoder agrees with the arithmetic
bit-field splitting on every input. -/
lemma readFloat16_eq_spec (v : ℕ) : readFloat16Val v = float16SpecModel v := by
  simp only [readFloat16Val, float16SpecModel, and_8000_shr_15, and_7C00_shr_10, and_03FF]
  have hs : v / 2 ^ 15 % 2 = 0 ∨ v / 2 ^ 15 % 2 = 1 := by omega
  rcases hs with h | h <;> rw [h] <;> split_ifs <;> first | rfl | norm_num at *

/-- C2: for every 16-bit pattern, the half-precision decoder splits it into
1 sign bit, 5 exponent bits and 10 fraction bits and applies the three
decoding rules (subnormal, NaN/infinity, normal); in particular
`0x3C00 → 1.0`, `0xC000 → -2.0`, `0x7C00 → +Infinity`, `0xFC00 → -Infinity`,
`0x7E00 → NaN`, `0x0000 → 0.0`. -/
theorem c2_half_float_decode :
    (∀ v : ℕ, v < 2 ^ 16 → readFloat16Val v = float16SpecModel v) ∧
    readFloat16Val 0x3C00 = .fin 1 ∧
    readFloat16Val 0xC000 = .fin (-2) ∧
    readFloat16Val 0x7C00 = .posInf ∧
    readFloat16Val 0xFC00 = .negInf ∧
    readFloat16Val 0x7E00 = .nan ∧
    readFloat16Val 0x0000 = .fin 0 := by
  refine ⟨fun v _ => readFloat16_eq_spec v, ?_, ?_, ?_, ?_, ?_, ?_⟩ <;>
    rw [readFloat16_eq_spec] <;> norm_num [float16SpecModel]

/-- Witness for C2 at the concrete pattern `0x3C00`. -/
theorem c2_half_float_decode_witness :
    (0x3C00 : ℕ) < 2 ^ 16 ∧ readFloat16Val 0x3C00 = float16SpecModel 0x3C00 :=
  ⟨by norm_num, c2_half_float_decode.1 0x3C00 (by norm_num)⟩

/-- The sequential read loop of `readNumericArray`, characterised by random
access: when it succeeds with `l`, `l` has one entry per requested sample
and its `i`-th entry is the sample decoded at byte offset `pos + i·width`. -/
lemma readNumLoop_spec (buf : List ℕ) (dt : DataType) :
    ∀ (n pos : ℕ) (l : List JsNum), readNumLoop buf dt pos n = some l →
      l.length = n ∧
      ∀ i, i < n → readOne buf dt (pos + i * dt.width) = some (l.getD i (.fin 0)) := by
  intro n
  induction n with
  | zero =>
    intro pos l h
    simp only [readNumLoop, Option.some.injEq] at h
    subst h
    exact ⟨rfl, fun i hi => absurd hi (by omega)⟩
  | succ m ih =>
    intro pos l h
    simp only [readNumLoop, Option.bind_eq_bind, Option.bind_eq_some, Option.pure_def,
      Option.some.injEq] at h
    obtain ⟨v, hv, rest, hrest, hl⟩ := h
    obtain ⟨hlen, hidx⟩ := ih (pos + dt.width) rest hrest
    subst hl
    refine ⟨by simp [hlen], ?_⟩
    intro i hi
    rcases i with _ | j
    · simpa using hv
    · have := hidx j (by omega)
      have harith : pos + dt.width + j * dt.width = pos + (j + 1) * dt.width := by ring
      rw [harith] at this
      simpa using this

/-- C1: accessing the physical data of a channel with a resolved dtype (on
first access, i.e. with an empty cache) decodes `dataLen` raw samples of
that dtype starting at `dataPtr` — the `i`-th at byte offset
`dataPtr + i·width` — and maps each raw value through the scaling
`(v / scale * 10^(-dec) + shift) * mul`. -/
theorem c1_data_decode_scale (buf : List ℕ) (c : LdChan) (dt : DataType)
    (l : List JsNum) (c' : LdChan)
    (hdt : c.dtype = some dt) (hcache : c.dataCache = none)
    (h : chanData buf c = .ok (l, c')) :
    l.length = c.dataLen ∧
    ∀ i, i < c.dataLen →
      (readOne buf dt (c.dataPtr + i * dt.width)).map (scaleChan c) =
        some (l.getD i (.fin 0)) := by
  simp only [chanData, hdt, hcache] at h
  cases hraw : readNumericArray buf c.dataPtr c.dataLen dt with
  | none => rw [hraw] at h; exact Except.noConfusion h
  | some rawData =>
    rw [hraw] at h
    simp only [Option.some.injEq, Except.ok.injEq, Prod.mk.injEq] at h
    obtain ⟨hl, _⟩ := h
    obtain ⟨hlen, hidx⟩ := readNumLoop_spec buf dt c.dataLen c.dataPtr rawData hraw
    subst hl
    constructor
    · simpa using hlen
    · intro i hi
      rw [hidx i hi]
      simp only [Option.map_some']
      congr 1
      rw [List.getD_eq_getElem?_getD, List.getD_eq_getElem?_getD,
        List.getElem?_map]
      have : i < rawData.length := by omega
      simp [List.getElem?_eq_getElem this]

/-- The §8 scenario evaluated: `testChan` on `testBuf` yields the physical
data `[1, 2, 3]` and the cached handle. -/
lemma chanData_testChan : chanData testBuf testChan = .ok (testPhys, testChanCached) := by
  norm_num [chanData, testChan, testBuf, testPhys, testChanCached, readNumericArray,
    readNumLoop, readOne, readInt16LE, readUInt16LE, toSigned16, scaleChan, jsDiv, jsMul,
    jsAdd, DataType.width]

/-- Witness for C1: the §8 scenario — raw int16 `[10, 20, 30]` with
`scale=1, dec=1, shift=0, mul=1` yields physical `[1.0, 2.0, 3.0]`. -/
theorem c1_data_decode_scale_witness :
    testChan.dtype = some DataType.int16 ∧
    testChan.dataCache = none ∧
    chanData testBuf testChan = .ok (testPhys, testChanCached) ∧
    testPhys.length = testChan.dataLen ∧
    (readOne testBuf DataType.int16 (testChan.dataPtr + 0 * DataType.int16.width)).map
      (scaleChan testChan) = some (testPhys.getD 0 (.fin 0)) :=
  ⟨by decide, by decide, chanData_testChan,
   (c1_data_decode_scale testBuf testChan DataType.int16 testPhys testChanCached
      (by decide) (by decide) chanData_testChan).1,
   (c1_data_decode_scale testBuf testChan DataType.int16 testPhys testChanCached
      (by decide) (by decide) chanData_testChan).2 0 (by decide)⟩

/-- C9: a successful data access leaves the physical sequence cached on the
returned handle, and every subsequent access returns exactly the cached
sequence — independently of the buffer, i.e. without re-reading it — so
computing the data twice returns identical values. -/
theorem c9_data_memoized (buf : List ℕ) (c : LdChan) (d : List JsNum) (c' : LdChan)
    (h : chanData buf c = .ok (d, c')) :
    c'.dataCache = some d ∧ ∀ buf2 : List ℕ, chanData buf2 c' = .ok (d, c') := by
  cases hdt : c.dtype with
  | none => simp [chanData, hdt] at h
  | some dt =>
    cases hcache : c.dataCache with
    | some d0 =>
      simp only [chanData, hdt, hcache, Except.ok.injEq, Prod.mk.injEq] at h
      obtain ⟨hd, hc⟩ := h
      subst hd
      subst hc
      refine ⟨hcache, fun buf2 => ?_⟩
      simp only [chanData, hdt, hcache]
    | none =>
      simp only [chanData, hdt, hcache] at h
      cases hraw : readNumericArray buf c.dataPtr c.dataLen dt with
      | none => rw [hraw] at h; exact Except.noConfusion h
      | some rawData =>
        rw [hraw] at h
        simp only [Except.ok.injEq, Prod.mk.injEq] at h
        obtain ⟨hd, hc⟩ := h
        subst hd
        have hc' : c'.dataCache = some (List.map (scaleChan c) rawData) := by
          rw [← hc]
        have hdt' : c'.dtype = some dt := by rw [← hc]
        refine ⟨hc', fun buf2 => ?_⟩
        simp only [chanData, hdt', hc']

/-- Witness for C9: after the scenario access, the cache holds `[1, 2, 3]`
and a second access (even on an empty buffer) returns the same values. -/
theorem c9_data_memoized_witness :
    testChanCached.dataCache = some testPhys ∧
    chanData [] testChanCached = .ok (testPhys, testChanCached) :=
  ⟨(c9_data_memoized testBuf testChan testPhys testChanCached chanData_testChan).1,
   (c9_data_memoized testBuf testChan testPhys testChanCached chanData_testChan).2 []⟩

/-- C3 (refuted: the code has no traversal guard): on `cyclicBuf` the record
at offset 16 parses successfully and points back to itself, and the source's
`while` loop — embedded with fuel — finishes under no fuel bound at all:
`readChannels` loops forever on this input instead of failing with a
`MalformedChannelChain` condition. -/
theorem c3_cyclic_chain_loops_forever :
    (ldChanFromFile cyclicBuf 16).isSome = true ∧
    ∀ fuel, readChannelsFuel cyclicBuf fuel 16 = none := by
  have h1 : (ldChanFromFile cyclicBuf 16).map LdChan.nextMetaPtr = some 16 := by decide
  refine ⟨by decide, ?_⟩
  cases hc : ldChanFromFile cyclicBuf 16 with
  | none => rw [hc] at h1; exact Option.noConfusion h1
  | some c =>
    have hnext : c.nextMetaPtr = 16 := by rw [hc] at h1; simpa using h1
    intro fuel
    induction fuel with
    | zero => simp [readChannelsFuel]
    | succ n ih =>
      rw [readChannelsFuel, if_neg (by norm_num), hc]
      simp [hnext, ih]

/-- C4 (counterexample): on `hdrBuf` the header parses, but its date text is
not the text decoded from the 16 bytes at offset 102 — the parser reads it
from offset 94. -/
theorem c4_header_offsets_counterexample :
    (ldHeadFromFile hdrBuf).isSome = true ∧
    (ldHeadFromFile hdrBuf).map LdHead.dateStr ≠
      some (decodeString (readBytes hdrBuf 102 16)) := by decide

/-- C4 (amended): header parsing decodes `metaPtr`, `dataPtr`, `eventPtr` at
offsets 8, 12, 36 as claimed, but the text fields at the offsets the code's
skip/read sequence yields: date at 94, time at 126, driver at 158, vehicleId
at 222, venue at 350 and shortComment at 1572. -/
theorem c4_header_offsets_amended (buf : List ℕ) (h : LdHead)
    (hf : ldHeadFromFile buf = some h) :
    readUInt32LE buf 8 = some h.metaPtr ∧
    readUInt32LE buf 12 = some h.dataPtr ∧
    readUInt32LE buf 36 = some h.eventPtr ∧
    h.dateStr = decodeString (readBytes buf 94 16) ∧
    h.timeStr = decodeString (readBytes buf 126 16) ∧
    h.driver = decodeString (readBytes buf 158 64) ∧
    h.vehicleId = decodeString (readBytes buf 222 64) ∧
    h.venue = decodeString (readBytes buf 350 64) ∧
    h.shortComment = decodeString (readBytes buf 1572 64) := by
  simp only [ldHeadFromFile, Option.bind_eq_bind, Option.bind_eq_some, Option.pure_def,
    Option.some.injEq] at hf
  obtain ⟨metaPtr, h8, hf⟩ := hf
  obtain ⟨dataPtr, h12, hf⟩ := hf
  obtain ⟨eventPtr, h36, hf⟩ := hf
  by_cases hev : eventPtr > 0
  · rw [if_pos hev] at hf
    cases hevp : ldEventFromFile buf eventPtr with
    | none => rw [hevp] at hf; simp at hf
    | some e =>
      rw [hevp] at hf
      simp only [Option.map_eq_map, Option.map_some', Option.some_bind,
        Option.some.injEq] at hf
      subst hf
      refine ⟨?_, ?_, ?_, ?_, ?_, ?_, ?_, ?_, ?_⟩ <;> norm_num [h8, h12, h36]
  · rw [if_neg hev] at hf
    simp only [Option.pure_def, Option.some_bind, Option.some.injEq] at hf
    subst hf
    refine ⟨?_, ?_, ?_, ?_, ?_, ?_, ?_, ?_, ?_⟩ <;> norm_num [h8, h12, h36]

/-- Witness for the amended C4 on `hdrBuf`: the decoded date text is the
`'A'` placed at offset 94. -/
theorem c4_header_offsets_amended_witness :
    ldHeadFromFile hdrBuf = some hdrBufHead ∧
    readUInt32LE hdrBuf 8 = some hdrBufHead.metaPtr ∧
    hdrBufHead.dateStr = decodeString (readBytes hdrBuf 94 16) :=
  ⟨by decide,
   (c4_header_offsets_amended hdrBuf hdrBufHead (by decide)).1,
   (c4_header_offsets_amended hdrBuf hdrBufHead (by decide)).2.2.2.1⟩

/-- C5 (counterexample): `readBytes` does not fail when
`[position, position+width)` exceeds the buffer: on the 2-byte buffer
`[1, 2]` a 5-byte read at position 0 succeeds and returns the clamped
slice. -/
theorem c5_readbytes_counterexample :
    readBytes [1, 2] 0 5 = [1, 2] ∧ ([1, 2] : List ℕ).length < 0 + 5 := by decide

/-- C5 (amended): the fixed-width numeric reads fail exactly when
`[position, position+width)` exceeds the buffer length, but `readBytes(n)`
never fails — it returns the bytes clipped to the buffer end. -/
theorem c5_bounds_amended : ∀ (buf : List ℕ) (pos n : ℕ),
    (readUInt16LE buf pos = none ↔ buf.length < pos + 2) ∧
    (readInt16LE buf pos = none ↔ buf.length < pos + 2) ∧
    (readUInt32LE buf pos = none ↔ buf.length < pos + 4) ∧
    (readInt32LE buf pos = none ↔ buf.length < pos + 4) ∧
    (readBytes buf pos n).length = min n (buf.length - pos) := by
  intro buf pos n
  refine ⟨?_, ?_, ?_, ?_, ?_⟩
  · simp only [readUInt16LE]; split_ifs with h <;> simp <;> omega
  · simp only [readInt16LE, readUInt16LE]; split_ifs with h <;> simp <;> omega
  · simp only [readUInt32LE]; split_ifs with h <;> simp <;> omega
  · simp only [readInt32LE, readUInt32LE]; split_ifs with h <;> simp <;> omega
  · simp [readBytes]

/-- C6: the dtype resolution of `LdChan.fromFile` agrees with the spec's
§4.5 table on every `(dtypeClass, dtypeWidth)` pair. -/
theorem c6_dtype_resolution : ∀ dtypeA dtypeRaw : ℕ,
    resolveDtype dtypeA dtypeRaw = dtypeOfSpec dtypeA dtypeRaw := by
  intro a w
  unfold resolveDtype dtypeOfSpec
  split_ifs <;> first | rfl | omega

/-- C7: `getChannel(index)` fails with `IndexOutOfRange` exactly when the
index is outside `[0, count)` (and succeeds inside); `getChannel(name)`
fails with `ChannelNotFound` when no channel matches and with
`AmbiguousChannelName` when more than one does. -/
theorem c7_lookup_errors : ∀ (channels : List LdChan),
    (∀ i : ℤ,
      (getChannelByIndex channels i = .error (.indexOutOfRange i) ↔
        (i < 0 ∨ (channels.length : ℤ) ≤ i)) ∧
      ((0 ≤ i ∧ i < (channels.length : ℤ)) → (getChannelByIndex channels i).isOk = true)) ∧
    (∀ n : String,
      ((channels.filter (fun ch => ch.name == n)).length = 0 →
        getChannelByName channels n = .error (.channelNotFound n)) ∧
      (1 < (channels.filter (fun ch => ch.name == n)).length →
        getChannelByName channels n = .error (.ambiguousChannelName n))) := by
  intro channels
  constructor
  · intro i
    constructor
    · unfold getChannelByIndex
      split_ifs with h
      · simp [h]
      · simp [h]
    · intro hin
      unfold getChannelByIndex
      rw [dif_neg (by omega)]
      rfl
  · intro n
    constructor
    · intro h0
      unfold getChannelByName
      rw [dif_pos h0]
    · intro h1
      unfold getChannelByName
      rw [dif_neg (by omega), if_pos h1]

/-- Witness for C7 on a document with two channels both named `"c"`: lookup
by name is ambiguous while both indices succeed and index 2 is rejected. -/
theorem c7_lookup_errors_witness :
    getChannelByName [testChan, testChanDouble] "c" = .error (.ambiguousChannelName "c") ∧
    (getChannelByIndex [testChan, testChanDouble] 0).isOk = true ∧
    (getChannelByIndex [testChan, testChanDouble] 1).isOk = true ∧
    getChannelByIndex [testChan, testChanDouble] 2 = .error (.indexOutOfRange 2) :=
  ⟨((c7_lookup_errors [testChan, testChanDouble]).2 "c").2 (by decide),
   ((c7_lookup_errors [testChan, testChanDouble]).1 0).2 (by decide),
   ((c7_lookup_errors [testChan, testChanDouble]).1 1).2 (by decide),
   ((c7_lookup_errors [testChan, testChanDouble]).1 2).1.mpr (by decide)⟩

lemma readUInt32LE_isSome (buf : List ℕ) (p : ℕ) (h : p + 4 ≤ buf.length) :
    ∃ v, readUInt32LE buf p = some v := by
  unfold readUInt32LE; rw [if_pos h]; exact ⟨_, rfl⟩

lemma readUInt16LE_isSome (buf : List ℕ) (p : ℕ) (h : p + 2 ≤ buf.length) :
    ∃ v, readUInt16LE buf p = some v := by
  unfold readUInt16LE; rw [if_pos h]; exact ⟨_, rfl⟩

lemma readInt16LE_isSome (buf : List ℕ) (p : ℕ) (h : p + 2 ≤ buf.length) :
    ∃ v, readInt16LE buf p = some v := by
  obtain ⟨v, hv⟩ := readUInt16LE_isSome buf p h
  exact ⟨toSigned16 v, by rw [readInt16LE, hv]; rfl⟩

/-- C8: parsing a channel record never fails because of its dtype bytes —
any record whose fixed-width fields are in bounds parses to a handle; the
`UnknownDataType` failure, naming the channel, is raised exactly at data
access on a handle whose dtype is unresolved, and a channel with a resolved
dtype never fails with `UnknownDataType`. -/
theorem c8_unknown_dtype_lazy : ∀ (buf : List ℕ) (p : ℕ),
    (p + 32 ≤ buf.length → (ldChanFromFile buf p).isSome = true) ∧
    (∀ c : LdChan, c.dtype = none →
      chanData buf c = .error (.unknownDataType c.name)) ∧
    (∀ (c : LdChan) (dt : DataType), c.dtype = some dt →
      ∀ n, chanData buf c ≠ .error (.unknownDataType n)) := by
  intro buf p
  refine ⟨?_, ?_, ?_⟩
  · intro hlen
    obtain ⟨v1, hv1⟩ := readUInt32LE_isSome buf p (by omega)
    obtain ⟨v2, hv2⟩ := readUInt32LE_isSome buf (p + 4) (by omega)
    obtain ⟨v3, hv3⟩ := readUInt32LE_isSome buf (p + 4 + 4) (by omega)
    obtain ⟨v4, hv4⟩ := readUInt32LE_isSome buf (p + 4 + 4 + 4) (by omega)
    obtain ⟨v5, hv5⟩ := readUInt16LE_isSome buf (p + 4 + 4 + 4 + 4 + 2) (by omega)
    obtain ⟨v6, hv6⟩ := readUInt16LE_isSome buf (p + 4 + 4 + 4 + 4 + 2 + 2) (by omega)
    obtain ⟨v7, hv7⟩ := readUInt16LE_isSome buf (p + 4 + 4 + 4 + 4 + 2 + 2 + 2) (by omega)
    obtain ⟨v8, hv8⟩ := readInt16LE_isSome buf (p + 4 + 4 + 4 + 4 + 2 + 2 + 2 + 2) (by omega)
    obtain ⟨v9, hv9⟩ :=
      readInt16LE_isSome buf (p + 4 + 4 + 4 + 4 + 2 + 2 + 2 + 2 + 2) (by omega)
    obtain ⟨v10, hv10⟩ :=
      readInt16LE_isSome buf (p + 4 + 4 + 4 + 4 + 2 + 2 + 2 + 2 + 2 + 2) (by omega)
    obtain ⟨v11, hv11⟩ :=
      readInt16LE_isSome buf (p + 4 + 4 + 4 + 4 + 2 + 2 + 2 + 2 + 2 + 2 + 2) (by omega)
    simp [ldChanFromFile, hv1, hv2, hv3, hv4, hv5, hv6, hv7, hv8, hv9, hv10, hv11]
  · intro c hdt
    simp [chanData, hdt]
  · intro c dt hdt n heq
    cases hcache : c.dataCache with
    | some d0 =>
      simp only [chanData, hdt, hcache] at heq
      exact Except.noConfusion heq
    | none =>
      simp only [chanData, hdt, hcache] at heq
      cases hraw : readNumericArray buf c.dataPtr c.dataLen dt with
      | none =>
        rw [hraw] at heq
        simp only [Except.error.injEq] at heq
        exact LdError.noConfusion heq
      | some rawData => rw [hraw] at heq; exact Except.noConfusion heq

/-- Witness for C8: the record in `unknownDtypeBuf` (dtype class 9) parses
to a handle whose dtype is unresolved, and data access on such a handle
fails with `UnknownDataType`. -/
theorem c8_unknown_dtype_lazy_witness :
    (ldChanFromFile unknownDtypeBuf 0).isSome = true ∧
    (ldChanFromFile unknownDtypeBuf 0).map LdChan.dtype = some none ∧
    chanData unknownDtypeBuf unknownChan = .error (.unknownDataType unknownChan.name) :=
  ⟨(c8_unknown_dtype_lazy unknownDtypeBuf 0).1 (by decide),
   by decide,
   (c8_unknown_dtype_lazy unknownDtypeBuf 0).2.1 unknownChan (by decide)⟩

lemma lookup_upsert (m : List (String × List JsNum)) (k : String) (v : List JsNum)
    (n : String) :
    (upsert m k v).lookup n = if n = k then some v else m.lookup n := by
  induction m with
  | nil =>
    by_cases hn : n = k
    · simp [upsert, List.lookup, hn]
    · have hbe : (n == k) = false := beq_eq_false_iff_ne.mpr hn
      simp [upsert, List.lookup, hbe, hn]
  | cons kv rest ih =>
    obtain ⟨k', v'⟩ := kv
    by_cases hk : k' = k
    · subst hk
      simp only [upsert, if_pos rfl, List.lookup]
      by_cases hn : n = k'
      · simp [hn]
      · have hbe : (n == k') = false := beq_eq_false_iff_ne.mpr hn
        simp [hbe, hn]
    · simp only [upsert, if_neg hk, List.lookup]
      by_cases hn : n = k'
      · subst hn
        have hnk : n ≠ k := fun hx => hk (by rw [hx])
        simp [hnk]
      · have hbe : (n == k') = false := beq_eq_false_iff_ne.mpr hn
        simp [hbe, ih]

lemma mem_keys_upsert (m : List (String × List JsNum)) (k : String) (v : List JsNum)
    (n : String) :
    n ∈ (upsert m k v).map Prod.fst ↔ n ∈ m.map Prod.fst ∨ n = k := by
  induction m with
  | nil => simp [upsert]
  | cons kv rest ih =>
    obtain ⟨k', v'⟩ := kv
    by_cases hk : k' = k
    · subst hk
      simp only [upsert, if_pos rfl]
      simp
      tauto
    · simp only [upsert, if_neg hk]
      simp [ih]
      tauto

lemma nodup_keys_upsert (m : List (String × List JsNum)) (k : String) (v : List JsNum)
    (h : (m.map Prod.fst).Nodup) : ((upsert m k v).map Prod.fst).Nodup := by
  induction m with
  | nil => simp [upsert]
  | cons kv rest ih =>
    obtain ⟨k', v'⟩ := kv
    simp only [List.map_cons, List.nodup_cons] at h
    obtain ⟨hk', hrest⟩ := h
    by_cases hk : k' = k
    · subst hk
      rw [upsert, if_pos rfl]
      simp only [List.map_cons, List.nodup_cons]
      exact ⟨hk', hrest⟩
    · rw [upsert, if_neg hk]
      simp only [List.map_cons, List.nodup_cons]
      refine ⟨?_, ih hrest⟩
      rw [mem_keys_upsert]
      push_neg
      exact ⟨hk', hk⟩

/-- The data getter fails only with `UnknownDataType` (naming its own
channel) or an out-of-bounds read — never with a lookup error. -/
lemma chanData_error_shape (buf : List ℕ) (c : LdChan) (e : LdError)
    (h : chanData buf c = .error e) :
    e = .unknownDataType c.name ∨ e = .outOfBounds := by
  cases hdt : c.dtype with
  | none =>
    simp only [chanData, hdt, Except.error.injEq] at h
    exact Or.inl h.symm
  | some dt =>
    cases hcache : c.dataCache with
    | some d0 => simp only [chanData, hdt, hcache] at h; exact Except.noConfusion h
    | none =>
      simp only [chanData, hdt, hcache] at h
      cases hraw : readNumericArray buf c.dataPtr c.dataLen dt with
      | none =>
        rw [hraw] at h
        simp only [Except.error.injEq] at h
        exact Or.inr h.symm
      | some rawData => rw [hraw] at h; exact Except.noConfusion h

lemma toDataMapGo_ok (buf : List ℕ) :
    ∀ (chans : List LdChan) (acc m : List (String × List JsNum)),
      toDataMapGo buf chans acc = .ok m →
      (∀ n : String, m.lookup n =
        (match lastNamed chans n with
         | some c =>
           (match chanData buf c with
            | .ok (d, _) => some d
            | .error _ => none)
         | none => acc.lookup n)) ∧
      ((acc.map Prod.fst).Nodup → (m.map Prod.fst).Nodup) ∧
      (∀ n, n ∈ m.map Prod.fst ↔ (∃ c ∈ chans, c.name = n) ∨ n ∈ acc.map Prod.fst) := by
  intro chans
  induction chans with
  | nil =>
    intro acc m h
    simp only [toDataMapGo, Except.ok.injEq] at h
    subst h
    refine ⟨fun n => rfl, id, fun n => ?_⟩
    simp [lastNamed]
  | cons c rest ih =>
    intro acc m h
    simp only [toDataMapGo] at h
    cases hc : chanData buf c with
    | error e => rw [hc] at h; exact Except.noConfusion h
    | ok dc =>
      obtain ⟨d, cafter⟩ := dc
      rw [hc] at h
      obtain ⟨hlook, hnodup, hmem⟩ := ih (upsert acc c.name d) m h
      refine ⟨?_, ?_, ?_⟩
      · intro n
        rw [hlook n]
        cases hlast : lastNamed rest n with
        | some c' => simp [lastNamed, hlast]
        | none =>
          simp only [lastNamed, hlast]
          by_cases hn : c.name = n
          · subst hn
            rw [if_pos rfl, lookup_upsert]
            simp [hc]
          · rw [if_neg hn, lookup_upsert, if_neg (fun hx => hn hx.symm)]
      · intro haccn
        exact hnodup (nodup_keys_upsert acc c.name d haccn)
      · intro n
        rw [hmem n, mem_keys_upsert]
        constructor
        · rintro (⟨c', hc', hname⟩ | hacc | hnc)
          · exact Or.inl ⟨c', List.mem_cons_of_mem _ hc', hname⟩
          · exact Or.inr hacc
          · exact Or.inl ⟨c, List.mem_cons_self _ _, hnc.symm⟩
        · rintro (⟨c', hc', hname⟩ | hacc)
          · rcases List.mem_cons.mp hc' with hceq | hcrest
            · subst hceq; exact Or.inr (Or.inr hname.symm)
            · exact Or.inl ⟨c', hcrest, hname⟩
          · exact Or.inr (Or.inl hacc)

lemma toDataMapGo_error (buf : List ℕ) :
    ∀ (chans : List LdChan) (acc : List (String × List JsNum)) (e : LdError)
      (n : String), toDataMapGo buf chans acc = .error e →
      e ≠ .ambiguousChannelName n := by
  intro chans
  induction chans with
  | nil => intro acc e n h; exact Except.noConfusion h
  | cons c rest ih =>
    intro acc e n h
    simp only [toDataMapGo] at h
    cases hc : chanData buf c with
    | error e' =>
      rw [hc] at h
      simp only [Except.error.injEq] at h
      subst h
      rcases chanData_error_shape buf c e' hc with he | he <;> subst he <;> simp
    | ok dc =>
      obtain ⟨d, cafter⟩ := dc
      rw [hc] at h
      exact ih (upsert acc c.name d) e n h

/-- C10: when `toDataMap` succeeds its keys are exactly the distinct channel
names, each bound to the data of the *last* channel of that name in
chain-traversal order (earlier duplicates are silently shadowed); and
`toDataMap` never fails with `AmbiguousChannelName`. -/
theorem c10_toDataMap_last_wins : ∀ (buf : List ℕ) (channels : List LdChan),
    (∀ m, toDataMap buf channels = .ok m →
      ((m.map Prod.fst).Nodup ∧
       (∀ n, n ∈ m.map Prod.fst ↔ ∃ c ∈ channels, c.name = n) ∧
       (∀ n c, lastNamed channels n = some c →
         ∀ d c', chanData buf c = .ok (d, c') → m.lookup n = some d))) ∧
    (∀ e n, toDataMap buf channels = .error e → e ≠ .ambiguousChannelName n) := by
  intro buf channels
  constructor
  · intro m hm
    obtain ⟨hlook, hnodup, hmem⟩ := toDataMapGo_ok buf channels [] m hm
    refine ⟨hnodup (by simp), fun n => ?_, fun n c hlast d c' hcd => ?_⟩
    · rw [hmem n]; simp
    · rw [hlook n, hlast]; simp [hcd]
  · intro e n hm
    exact toDataMapGo_error buf channels [] e n hm

/-- The data of `testChanDouble` on `testBuf`: `[2, 4, 6]`. -/
lemma chanData_testChanDouble :
    chanData testBuf testChanDouble = .ok (testPhysDouble, testChanDoubleCached) := by
  norm_num [chanData, testChan, testChanDouble, testBuf, testPhysDouble,
    testChanDoubleCached, readNumericArray, readNumLoop, readOne, readInt16LE,
    readUInt16LE, toSigned16, scaleChan, jsDiv, jsMul, jsAdd, DataType.width]

/-- `toDataMap` on two channels both named `"c"`: one binding, holding the
last channel's data. -/
lemma toDataMap_fixture :
    toDataMap testBuf [testChanDouble, testChan] = .ok [("c", testPhys)] := by
  simp only [toDataMap, toDataMapGo, chanData_testChanDouble, chanData_testChan]
  norm_num [upsert, testChan, testChanDouble, testPhys, testPhysDouble]

/-- Witness for C10: with duplicated name `"c"`, the map holds one binding —
the data `[1, 2, 3]` of the last channel — and `toDataMap` did not fail. -/
theorem c10_toDataMap_last_wins_witness :
    toDataMap testBuf [testChanDouble, testChan] = .ok [("c", testPhys)] ∧
    lastNamed [testChanDouble, testChan] "c" = some testChan ∧
    List.lookup "c" [("c", testPhys)] = some testPhys :=
  ⟨toDataMap_fixture, by decide,
   (((c10_toDataMap_last_wins testBuf [testChanDouble, testChan]).1
      [("c", testPhys)] toDataMap_fixture).2.2 "c" testChan (by decide)
      testPhys testChanCached chanData_testChan)⟩

end Motec
